import Mathlib

/-!
Verification of the SecureVault room-key distribution, RBAC, file-lock,
secure-deletion and file-encryption core.

Byte strings are modelled as `List Nat` (each element a byte value below 256
where it matters).  External cryptographic primitives (AES-GCM, ChaCha20,
the AES block cipher, PBKDF2, base64) come from the `cryptography` /
`base64` libraries, not from this repository; they are modelled as abstract
function parameters, with their documented contracts (AEAD round-trip,
block-cipher invertibility) taken as hypotheses where a theorem needs them.
Everything that the repository itself implements — control flow, error
paths, database row manipulation, tag splitting, PKCS7 padding shape,
CBC chaining structure, role ranks, lock state transitions — is modelled
directly from the source.
-/

namespace SecureVault

abbrev Bytes := List Nat

/-- Decidable equality for `Except`, used to evaluate concrete service
outcomes in witness statements. -/
instance {e a : Type} [DecidableEq e] [DecidableEq a] : DecidableEq (Except e a) :=
  fun x y =>
    match x, y with
    | .error u, .error w =>
      match decEq u w with
      | isTrue h => isTrue (by rw [h])
      | isFalse h => isFalse (by intro hc; cases hc; exact h rfl)
    | .error _, .ok _ => isFalse (by intro hc; cases hc)
    | .ok _, .error _ => isFalse (by intro hc; cases hc)
    | .ok u, .ok w =>
      match decEq u w with
      | isTrue h => isTrue (by rw [h])
      | isFalse h => isFalse (by intro hc; cases hc; exact h rfl)

/-- Abstract AEAD backend (AESGCM / ChaCha20Poly1305 from the external
cryptography library): `enc key nonce plaintext` returns ciphertext with the
16-byte tag appended; `dec key nonce ct` returns the plaintext or fails. -/
structure Aead where
  enc : Bytes → Bytes → Bytes → Bytes
  dec : Bytes → Bytes → Bytes → Option Bytes

/-- Library contract: decrypting an AEAD encryption with the same key and
nonce returns the original plaintext. -/
def Aead.RoundTrip (a : Aead) : Prop :=
  ∀ k n p, a.dec k n (a.enc k n p) = some p

/-- Role hierarchy from `server/models/room_model.py` (`ROLE_HIERARCHY`). -/
def ROLE_HIERARCHY : List (String × Nat) :=
  [("owner", 4), ("admin", 3), ("member", 2), ("viewer", 1)]

/-- Python `ROLE_HIERARCHY.get(role, 0)`: rank of a role string, 0 when the
role is not one of the four known names. -/
def roleLevel (role : String) : Nat :=
  (((ROLE_HIERARCHY.find? (fun p => p.1 == role)).map Prod.snd)).getD 0

/-- Python `role in ROLE_HIERARCHY` membership test. -/
def roleKnown (role : String) : Bool :=
  ROLE_HIERARCHY.any (fun p => p.1 == role)

/-- Row of the `room_members` table. -/
structure RoomMemberRow where
  room_id : Nat
  user_id : Nat
  role : String
deriving DecidableEq

/-- Row of the `room_keys` table. -/
structure RoomKeyRow where
  room_id : Nat
  user_id : Nat
  encrypted_room_key : Bytes
  nonce : Bytes
  tag : Bytes
deriving DecidableEq

/-- Row of the `rooms` table. -/
structure RoomRow where
  id : Nat
  name : String
  description : Option String
  owner_id : Nat
deriving DecidableEq

/-- Row of the `keys` table (`server/models/key_model.py`): the per-user
master key, stored base64-encoded by `store_encrypted_key`. -/
structure KeyRow where
  user_id : Nat
  encrypted_master_key : Bytes
deriving DecidableEq

/-- The database state the room service operates on. -/
structure DB where
  rooms : List RoomRow
  room_members : List RoomMemberRow
  room_keys : List RoomKeyRow
  master_keys : List KeyRow
  nextRoomId : Nat
deriving DecidableEq

/-- Exceptions raised by the services, by Python exception class plus the
message from the source. -/
inductive PyErr where
  | permissionError (msg : String)
  | valueError (msg : String)
  | invalidTag
deriving DecidableEq

/-- External-library bundle used by the key and room services: the AESGCM
AEAD and base64 decoding. -/
structure RoomLib where
  aesgcm : Aead
  b64decode : Bytes → Bytes

/-- Embedding of `key_service.retrieve_master_key`: look up the user's key
row and base64-decode the stored value. -/
def retrieve_master_key (lib : RoomLib) (db : DB) (user_id : Nat) : Option Bytes :=
  (db.master_keys.find? (fun r => r.user_id == user_id)).map
    (fun r => lib.b64decode r.encrypted_master_key)

/-- Embedding of `room_service._encrypt_room_key`: AES-GCM-encrypt the room
key under a master key; the library appends a 16-byte tag, which the source
splits off.  The nonce (`os.urandom(12)`) is an explicit argument. -/
def _encrypt_room_key (lib : RoomLib) (room_key master_key nonce : Bytes) :
    Bytes × Bytes × Bytes :=
  let ciphertext := lib.aesgcm.enc master_key nonce room_key
  (ciphertext.take (ciphertext.length - 16), nonce,
    ciphertext.drop (ciphertext.length - 16))

/-- Embedding of `room_service._decrypt_room_key`. -/
def _decrypt_room_key (lib : RoomLib) (encrypted_room_key nonce tag master_key : Bytes) :
    Option Bytes :=
  lib.aesgcm.dec master_key nonce (encrypted_room_key ++ tag)

/-- Embedding of `room_service.check_permission`. -/
def check_permission (db : DB) (room_id user_id : Nat) (required_role : String) : Bool :=
  match db.room_members.find? (fun m => m.room_id == room_id && m.user_id == user_id) with
  | none => false
  | some membership => roleLevel membership.role ≥ roleLevel required_role

/-- Embedding of `room_service.get_room_key`. -/
def get_room_key (lib : RoomLib) (db : DB) (room_id user_id : Nat) : Except PyErr Bytes :=
  match db.room_keys.find? (fun k => k.room_id == room_id && k.user_id == user_id) with
  | none => .error (.permissionError "No room key found - user is not a member")
  | some key_record =>
    match retrieve_master_key lib db user_id with
    | none => .error (.valueError "User has no master key")
    | some master_key =>
      if master_key.isEmpty then .error (.valueError "User has no master key")
      else
        match _decrypt_room_key lib key_record.encrypted_room_key key_record.nonce
            key_record.tag master_key with
        | none => .error .invalidTag
        | some k => .ok k

/-- Embedding of `room_service.create_room`.  The fresh room key
(`os.urandom(32)`) and GCM nonce are explicit arguments standing for the
random draws; a raised exception means nothing was committed. -/
def create_room (lib : RoomLib) (db : DB) (owner_id : Nat) (name : String)
    (description : Option String) (room_key nonce : Bytes) :
    Except PyErr (DB × RoomRow) :=
  match retrieve_master_key lib db owner_id with
  | none => .error (.valueError "Owner has no master key")
  | some master_key =>
    if master_key.isEmpty then .error (.valueError "Owner has no master key")
    else
      let room : RoomRow := ⟨db.nextRoomId, name, description, owner_id⟩
      let membership : RoomMemberRow := ⟨room.id, owner_id, "owner"⟩
      let wrapped := _encrypt_room_key lib room_key master_key nonce
      let key_record : RoomKeyRow :=
        ⟨room.id, owner_id, wrapped.1, wrapped.2.1, wrapped.2.2⟩
      .ok ({ db with
              rooms := db.rooms ++ [room],
              room_members := db.room_members ++ [membership],
              room_keys := db.room_keys ++ [key_record],
              nextRoomId := db.nextRoomId + 1 }, room)

/-- Embedding of `room_service.add_member`. -/
def add_member (lib : RoomLib) (db : DB) (room_id user_id : Nat) (role : String)
    (adder_id : Nat) (nonce : Bytes) : Except PyErr DB :=
  if ¬ check_permission db room_id adder_id "admin" then
    .error (.permissionError "Only admins and above can add members")
  else if (db.room_members.find?
      (fun m => m.room_id == room_id && m.user_id == user_id)).isSome then
    .error (.valueError "User is already a member of this room")
  else if ¬ roleKnown role ∨ role = "owner" then
    .error (.valueError "Invalid role: must be admin, member, or viewer")
  else
    match get_room_key lib db room_id adder_id with
    | .error e => .error e
    | .ok room_key =>
      match retrieve_master_key lib db user_id with
      | none => .error (.valueError "Target user has no master key")
      | some member_master_key =>
        if member_master_key.isEmpty then
          .error (.valueError "Target user has no master key")
        else
          let wrapped := _encrypt_room_key lib room_key member_master_key nonce
          let membership : RoomMemberRow := ⟨room_id, user_id, role⟩
          let key_record : RoomKeyRow :=
            ⟨room_id, user_id, wrapped.1, wrapped.2.1, wrapped.2.2⟩
          .ok { db with
                  room_members := db.room_members ++ [membership],
                  room_keys := db.room_keys ++ [key_record] }

/-- Embedding of `room_service.remove_member`: deletes the found membership
row and every room-key row for the pair. -/
def remove_member (db : DB) (room_id user_id remover_id : Nat) : Except PyErr DB :=
  if ¬ check_permission db room_id remover_id "admin" then
    .error (.permissionError "Only admins and above can remove members")
  else
    match db.room_members.find?
        (fun m => m.room_id == room_id && m.user_id == user_id) with
    | none => .error (.valueError "User is not a member")
    | some membership =>
      if membership.role = "owner" then
        .error (.valueError "Cannot remove the room owner")
      else
        .ok { db with
                room_keys := db.room_keys.filter
                  (fun k => !(k.room_id == room_id && k.user_id == user_id)),
                room_members := db.room_members.erase membership }

/-- One caller-visible room operation, with the random draws the operation
makes (`os.urandom`) carried as data. -/
inductive Op where
  | createRoom (owner_id : Nat) (name : String) (description : Option String)
      (room_key nonce : Bytes)
  | addMember (room_id user_id : Nat) (role : String) (adder_id : Nat) (nonce : Bytes)
  | removeMember (room_id user_id remover_id : Nat)

/-- Apply one operation; a raised exception rolls back, leaving the database
unchanged. -/
def applyOp (lib : RoomLib) (db : DB) : Op → DB
  | .createRoom o n d rk nc =>
    match create_room lib db o n d rk nc with
    | .ok (db', _) => db'
    | .error _ => db
  | .addMember r u role a nc =>
    match add_member lib db r u role a nc with
    | .ok db' => db'
    | .error _ => db
  | .removeMember r u a =>
    match remove_member db r u a with
    | .ok db' => db'
    | .error _ => db

/-- Initial database: no rooms, memberships or room keys; master keys were
created at signup (outside the room operations). -/
def initDB (master_keys : List KeyRow) : DB := ⟨[], [], [], master_keys, 0⟩

/-- Replay a sequence of room operations from the initial database. -/
def replay (lib : RoomLib) (master_keys : List KeyRow) (ops : List Op) : DB :=
  ops.foldl (applyOp lib) (initDB master_keys)

/-- A RoomMember row for the pair exists. -/
def hasMember (db : DB) (room_id user_id : Nat) : Bool :=
  db.room_members.any (fun m => m.room_id == room_id && m.user_id == user_id)

/-- A RoomKey row for the pair exists. -/
def hasKey (db : DB) (room_id user_id : Nat) : Bool :=
  db.room_keys.any (fun k => k.room_id == room_id && k.user_id == user_id)

/-- Two member rows do not collide on the (room, user) unique constraint. -/
def memPairDistinct (a b : RoomMemberRow) : Prop :=
  ¬ (a.room_id = b.room_id ∧ a.user_id = b.user_id)

/-- Database well-formedness maintained by the room operations. -/
structure Inv (db : DB) : Prop where
  membUniq : db.room_members.Pairwise memPairDistinct
  keyMemb : ∀ r u, hasKey db r u = hasMember db r u
  membBound : ∀ m ∈ db.room_members, m.room_id < db.nextRoomId
  keyBound : ∀ k ∈ db.room_keys, k.room_id < db.nextRoomId

theorem inv_initDB (mks : List KeyRow) : Inv (initDB mks) := by
  refine ⟨List.Pairwise.nil, fun r u => rfl, ?_, ?_⟩ <;> simp [initDB]

theorem create_room_shape {lib : RoomLib} {db : DB} {o : Nat} {n : String}
    {d : Option String} {rk nc : Bytes} {db' : DB} {room : RoomRow}
    (h : create_room lib db o n d rk nc = .ok (db', room)) :
    ∃ mk, retrieve_master_key lib db o = some mk ∧ mk.isEmpty = false ∧
      room = ⟨db.nextRoomId, n, d, o⟩ ∧
      db' = { db with
                rooms := db.rooms ++ [⟨db.nextRoomId, n, d, o⟩],
                room_members := db.room_members ++ [⟨db.nextRoomId, o, "owner"⟩],
                room_keys := db.room_keys ++
                  [⟨db.nextRoomId, o, (_encrypt_room_key lib rk mk nc).1,
                    (_encrypt_room_key lib rk mk nc).2.1,
                    (_encrypt_room_key lib rk mk nc).2.2⟩],
                nextRoomId := db.nextRoomId + 1 } := by
  unfold create_room at h
  cases hmk : retrieve_master_key lib db o with
  | none => rw [hmk] at h; simp at h
  | some mk =>
    rw [hmk] at h
    by_cases he : mk.isEmpty
    · simp [he] at h
    · rw [Bool.not_eq_true] at he
      simp only [he, Bool.false_eq_true, if_false, Except.ok.injEq, Prod.mk.injEq] at h
      exact ⟨mk, rfl, he, h.2.symm, h.1.symm⟩

theorem create_room_inv {lib : RoomLib} {db : DB} {o : Nat} {n : String}
    {d : Option String} {rk nc : Bytes} {db' : DB} {room : RoomRow}
    (hInv : Inv db) (h : create_room lib db o n d rk nc = .ok (db', room)) :
    Inv db' := by
  obtain ⟨mk, -, -, -, hdb'⟩ := create_room_shape h
  subst hdb'
  refine ⟨?_, ?_, ?_, ?_⟩
  · rw [List.pairwise_append]
    refine ⟨hInv.membUniq, List.pairwise_singleton _ _, ?_⟩
    intro a ha b hb
    simp only [List.mem_singleton] at hb
    subst hb
    intro ⟨h1, _⟩
    exact absurd h1 (Nat.ne_of_lt (hInv.membBound a ha))
  · intro r u
    have hKM := hInv.keyMemb r u
    simp only [hasKey, hasMember] at hKM
    simp only [hasKey, hasMember, List.any_append, List.any_cons, List.any_nil,
      Bool.or_false]
    rw [hKM]
  · intro m hm
    simp only [List.mem_append, List.mem_singleton] at hm
    rcases hm with hm | hm
    · exact Nat.lt_succ_of_lt (hInv.membBound m hm)
    · subst hm; exact Nat.lt_succ_self _
  · intro k hk
    simp only [List.mem_append, List.mem_singleton] at hk
    rcases hk with hk | hk
    · exact Nat.lt_succ_of_lt (hInv.keyBound k hk)
    · subst hk; exact Nat.lt_succ_self _

theorem check_permission_mem {db : DB} {r a : Nat} {ρ : String}
    (h : check_permission db r a ρ = true) :
    ∃ m ∈ db.room_members, m.room_id = r ∧ m.user_id = a := by
  unfold check_permission at h
  cases hf : db.room_members.find? (fun m => m.room_id == r && m.user_id == a) with
  | none => rw [hf] at h; simp at h
  | some m =>
    have hm := List.mem_of_find?_eq_some hf
    have hp := List.find?_some hf
    simp only [Bool.and_eq_true, beq_iff_eq] at hp
    exact ⟨m, hm, hp.1, hp.2⟩

theorem add_member_shape {lib : RoomLib} {db : DB} {room_id user_id : Nat}
    {role : String} {adder_id : Nat} {nc : Bytes} {db' : DB}
    (h : add_member lib db room_id user_id role adder_id nc = .ok db') :
    check_permission db room_id adder_id "admin" = true ∧
    db.room_members.find? (fun m => m.room_id == room_id && m.user_id == user_id)
      = none ∧
    ∃ rk mmk, get_room_key lib db room_id adder_id = .ok rk ∧
      retrieve_master_key lib db user_id = some mmk ∧
      db' = { db with
              room_members := db.room_members ++ [⟨room_id, user_id, role⟩],
              room_keys := db.room_keys ++
                [⟨room_id, user_id, (_encrypt_room_key lib rk mmk nc).1,
                  (_encrypt_room_key lib rk mmk nc).2.1,
                  (_encrypt_room_key lib rk mmk nc).2.2⟩] } := by
  unfold add_member at h
  by_cases h1 : check_permission db room_id adder_id "admin" = true
  · rw [if_neg (not_not_intro h1)] at h
    by_cases h2 : (db.room_members.find?
        (fun m => m.room_id == room_id && m.user_id == user_id)).isSome = true
    · rw [if_pos h2] at h; exact Except.noConfusion h
    · rw [if_neg h2] at h
      by_cases h3 : (¬ roleKnown role = true ∨ role = "owner")
      · rw [if_pos h3] at h; exact Except.noConfusion h
      · rw [if_neg h3] at h
        cases hrk : get_room_key lib db room_id adder_id with
        | error e => simp only [hrk] at h; exact Except.noConfusion h
        | ok rk =>
          simp only [hrk] at h
          cases hmk : retrieve_master_key lib db user_id with
          | none => simp only [hmk] at h; exact Except.noConfusion h
          | some mmk =>
            simp only [hmk] at h
            by_cases hemp : mmk.isEmpty = true
            · rw [if_pos hemp] at h; exact Except.noConfusion h
            · rw [if_neg hemp] at h
              simp only [Except.ok.injEq] at h
              exact ⟨h1, Option.not_isSome_iff_eq_none.mp h2, rk, mmk, rfl, rfl,
                h.symm⟩
  · rw [if_pos h1] at h; exact Except.noConfusion h

theorem add_member_inv {lib : RoomLib} {db : DB} {room_id user_id : Nat}
    {role : String} {adder_id : Nat} {nc : Bytes} {db' : DB}
    (hInv : Inv db) (h : add_member lib db room_id user_id role adder_id nc = .ok db') :
    Inv db' := by
  obtain ⟨hperm, hnone, rk, mmk, -, -, hdb'⟩ := add_member_shape h
  have hnomem := List.find?_eq_none.mp hnone
  subst hdb'
  refine ⟨?_, ?_, ?_, ?_⟩
  · rw [List.pairwise_append]
    refine ⟨hInv.membUniq, List.pairwise_singleton _ _, ?_⟩
    intro m hm b hb
    simp only [List.mem_singleton] at hb
    subst hb
    intro ⟨e1, e2⟩
    exact hnomem m hm (by simp [e1, e2])
  · intro r u
    have hKM := hInv.keyMemb r u
    simp only [hasKey, hasMember] at hKM
    simp only [hasKey, hasMember, List.any_append, List.any_cons, List.any_nil,
      Bool.or_false]
    rw [hKM]
  · intro m hm
    simp only [List.mem_append, List.mem_singleton] at hm
    rcases hm with hm | hm
    · exact hInv.membBound m hm
    · obtain ⟨ma, hma, hmr, -⟩ := check_permission_mem hperm
      subst hm
      exact hmr ▸ hInv.membBound ma hma
  · intro k hk
    simp only [List.mem_append, List.mem_singleton] at hk
    rcases hk with hk | hk
    · exact hInv.keyBound k hk
    · obtain ⟨ma, hma, hmr, -⟩ := check_permission_mem hperm
      subst hk
      exact hmr ▸ hInv.membBound ma hma

theorem remove_member_shape {db : DB} {room_id user_id remover_id : Nat} {db' : DB}
    (h : remove_member db room_id user_id remover_id = .ok db') :
    check_permission db room_id remover_id "admin" = true ∧
    ∃ membership,
      db.room_members.find? (fun m => m.room_id == room_id && m.user_id == user_id)
        = some membership ∧
      membership.role ≠ "owner" ∧
      db' = { db with
              room_keys := db.room_keys.filter
                (fun k => !(k.room_id == room_id && k.user_id == user_id)),
              room_members := db.room_members.erase membership } := by
  unfold remove_member at h
  by_cases h1 : check_permission db room_id remover_id "admin" = true
  · rw [if_neg (not_not_intro h1)] at h
    cases hf : db.room_members.find?
        (fun m => m.room_id == room_id && m.user_id == user_id) with
    | none => simp only [hf] at h; exact Except.noConfusion h
    | some m =>
      simp only [hf] at h
      by_cases hrole : m.role = "owner"
      · rw [if_pos hrole] at h; exact Except.noConfusion h
      · rw [if_neg hrole] at h
        simp only [Except.ok.injEq] at h
        exact ⟨h1, m, rfl, hrole, h.symm⟩
  · rw [if_pos h1] at h; exact Except.noConfusion h

theorem erase_matching_eq_filter {l : List RoomMemberRow} {room_id user_id : Nat}
    {m : RoomMemberRow} (hu : l.Pairwise memPairDistinct)
    (hf : l.find? (fun x => x.room_id == room_id && x.user_id == user_id) = some m) :
    l.erase m = l.filter (fun x => !(x.room_id == room_id && x.user_id == user_id)) := by
  induction l with
  | nil => simp at hf
  | cons a l ih =>
    by_cases ha : (a.room_id == room_id && a.user_id == user_id) = true
    · rw [List.find?_cons_of_pos
          (p := fun x => x.room_id == room_id && x.user_id == user_id) l ha,
        Option.some.injEq] at hf
      subst hf
      rw [List.erase_cons_head]
      have hrest : ∀ x ∈ l,
          (!(x.room_id == room_id && x.user_id == user_id)) = true := by
        intro x hx
        have hd := (List.pairwise_cons.mp hu).1 x hx
        cases hxm : (x.room_id == room_id && x.user_id == user_id) with
        | false => simp [hxm]
        | true =>
          exfalso
          simp only [Bool.and_eq_true, beq_iff_eq] at hxm ha
          exact hd ⟨ha.1.trans hxm.1.symm, ha.2.trans hxm.2.symm⟩
      rw [List.filter_cons_of_neg (by simp [ha]), List.filter_eq_self.mpr hrest]
    · rw [List.find?_cons_of_neg
          (p := fun x => x.room_id == room_id && x.user_id == user_id) l ha] at hf
      have hm := List.find?_some hf
      have hne : a ≠ m := fun he => ha (he ▸ hm)
      rw [List.erase_cons_tail (by simpa using hne),
        List.filter_cons_of_pos (by simp only [Bool.not_eq_true] at ha; simp [ha]),
        ih (List.pairwise_cons.mp hu).2 hf]

theorem any_filter_of_imp {α : Type} {l : List α} {p q : α → Bool}
    (h : ∀ x ∈ l, q x = true → p x = true) :
    (l.filter p).any q = l.any q := by
  induction l with
  | nil => rfl
  | cons a l ih =>
    have htl := ih (fun x hx => h x (List.mem_cons_of_mem a hx))
    by_cases hp : p a = true
    · rw [List.filter_cons_of_pos hp, List.any_cons, List.any_cons, htl]
    · have hqa : q a = false := by
        cases hq : q a with
        | false => rfl
        | true => exact absurd (h a (List.mem_cons_self a l) hq) hp
      rw [List.filter_cons_of_neg (by simpa using hp), List.any_cons, hqa,
        Bool.false_or, htl]

theorem any_filter_not {α : Type} (l : List α) (p : α → Bool) :
    (l.filter (fun x => !p x)).any p = false := by
  rw [List.any_eq_false]
  intro x hx
  have := (List.mem_filter.mp hx).2
  simp only [Bool.not_eq_true'] at this
  simp [this]

theorem remove_member_post {db : DB} {room_id user_id remover_id : Nat} {db' : DB}
    (hInv : Inv db) (h : remove_member db room_id user_id remover_id = .ok db') :
    Inv db' ∧ hasMember db' room_id user_id = false ∧
      hasKey db' room_id user_id = false := by
  obtain ⟨hperm, m, hf, hrole, hdb'⟩ := remove_member_shape h
  have herase := erase_matching_eq_filter hInv.membUniq hf
  subst hdb'
  refine ⟨⟨?_, ?_, ?_, ?_⟩, ?_, ?_⟩
  · exact hInv.membUniq.sublist (List.erase_sublist m _)
  · intro r u
    show (db.room_keys.filter _).any _ = (db.room_members.erase m).any _
    rw [herase]
    by_cases hru : r = room_id ∧ u = user_id
    · obtain ⟨rfl, rfl⟩ := hru
      rw [any_filter_not, any_filter_not]
    · have himp1 : ∀ k ∈ db.room_keys, (k.room_id == r && k.user_id == u) = true →
          (!(k.room_id == room_id && k.user_id == user_id)) = true := by
        intro k _ hk
        simp only [Bool.and_eq_true, beq_iff_eq] at hk
        simp only [Bool.not_eq_eq_eq_not, Bool.not_true, Bool.and_eq_false_iff,
          beq_eq_false_iff_ne, ne_eq]
        by_contra hcon
        push_neg at hcon
        exact hru ⟨hk.1 ▸ hcon.1.symm ▸ rfl, hk.2 ▸ hcon.2.symm ▸ rfl⟩
      have himp2 : ∀ x ∈ db.room_members, (x.room_id == r && x.user_id == u) = true →
          (!(x.room_id == room_id && x.user_id == user_id)) = true := by
        intro x _ hx
        simp only [Bool.and_eq_true, beq_iff_eq] at hx
        simp only [Bool.not_eq_eq_eq_not, Bool.not_true, Bool.and_eq_false_iff,
          beq_eq_false_iff_ne, ne_eq]
        by_contra hcon
        push_neg at hcon
        exact hru ⟨hx.1 ▸ hcon.1.symm ▸ rfl, hx.2 ▸ hcon.2.symm ▸ rfl⟩
      rw [any_filter_of_imp himp1, any_filter_of_imp himp2]
      exact hInv.keyMemb r u
  · intro x hx
    exact hInv.membBound x (List.mem_of_mem_erase hx)
  · intro k hk
    exact hInv.keyBound k (List.mem_of_mem_filter hk)
  · show (db.room_members.erase m).any _ = false
    rw [herase]
    exact any_filter_not _ _
  · exact any_filter_not _ _

theorem applyOp_inv {lib : RoomLib} {db : DB} {op : Op} (hInv : Inv db) :
    Inv (applyOp lib db op) := by
  cases op with
  | createRoom o n d rk nc =>
    dsimp only [applyOp]
    cases hc : create_room lib db o n d rk nc with
    | error e => exact hInv
    | ok p =>
      obtain ⟨db', room⟩ := p
      exact create_room_inv hInv hc
  | addMember r u role a nc =>
    dsimp only [applyOp]
    cases hc : add_member lib db r u role a nc with
    | error e => exact hInv
    | ok db' => exact add_member_inv hInv hc
  | removeMember r u a =>
    dsimp only [applyOp]
    cases hc : remove_member db r u a with
    | error e => exact hInv
    | ok db' => exact (remove_member_post hInv hc).1

theorem foldl_inv {lib : RoomLib} :
    ∀ (ops : List Op) (db : DB), Inv db → Inv (ops.foldl (applyOp lib) db)
  | [], _, h => h
  | _ :: ops, _, h => foldl_inv ops _ (applyOp_inv h)

theorem replay_inv (lib : RoomLib) (mks : List KeyRow) (ops : List Op) :
    Inv (replay lib mks ops) :=
  foldl_inv ops _ (inv_initDB mks)

/-- C1: in every state reachable by any sequence of create_room, add_member
and remove_member operations, a RoomKey row exists for a (room, user) pair
iff a RoomMember row exists for the same pair; and after remove_member
succeeds, both rows are gone and get_room_key fails with the
permission-denied error. -/
theorem C1_roomkey_iff_member (lib : RoomLib) (mks : List KeyRow) (ops : List Op) :
    (∀ r u, hasKey (replay lib mks ops) r u = hasMember (replay lib mks ops) r u) ∧
    (∀ room_id user_id remover_id db',
      remove_member (replay lib mks ops) room_id user_id remover_id = .ok db' →
      hasMember db' room_id user_id = false ∧ hasKey db' room_id user_id = false ∧
      get_room_key lib db' room_id user_id =
        .error (.permissionError "No room key found - user is not a member")) := by
  have hInv := replay_inv lib mks ops
  refine ⟨hInv.keyMemb, ?_⟩
  intro room_id user_id remover_id db' h
  obtain ⟨hInv', hmem, hkey⟩ := remove_member_post hInv h
  refine ⟨hmem, hkey, ?_⟩
  have hnone : db'.room_keys.find?
      (fun k => k.room_id == room_id && k.user_id == user_id) = none :=
    List.find?_eq_none.mpr (List.any_eq_false.mp hkey)
  unfold get_room_key
  rw [hnone]

/-- Concrete stand-in for the AESGCM backend used to instantiate witness
statements: appends a 16-byte tag of zeros; decryption strips it. -/
def testAead : Aead :=
  ⟨fun _ _ p => p ++ List.replicate 16 0,
   fun _ _ c => some (c.take (c.length - 16))⟩

theorem testAead_roundTrip : testAead.RoundTrip := by
  intro k n p
  simp only [testAead]
  congr 1
  rw [List.length_append, List.length_replicate, Nat.add_sub_cancel]
  exact List.take_left p (List.replicate 16 0)

def testRoomLib : RoomLib := ⟨testAead, id⟩

def exampleMasterKeys : List KeyRow := [⟨1, [7]⟩, ⟨2, [9]⟩]

def exampleOps : List Op :=
  [.createRoom 1 "R" none (List.replicate 32 5) (List.replicate 12 0),
   .addMember 0 2 "member" 1 (List.replicate 12 1)]

def exampleDB : DB := replay testRoomLib exampleMasterKeys exampleOps

def exampleDBAfterRemove : DB :=
  match remove_member exampleDB 0 2 1 with
  | .ok d => d
  | .error _ => exampleDB

theorem C1_roomkey_iff_member_witness :
    hasMember exampleDBAfterRemove 0 2 = false ∧
    hasKey exampleDBAfterRemove 0 2 = false ∧
    get_room_key testRoomLib exampleDBAfterRemove 0 2 =
      .error (.permissionError "No room key found - user is not a member") :=
  (C1_roomkey_iff_member testRoomLib exampleMasterKeys exampleOps).2 0 2 1
    exampleDBAfterRemove rfl

/-- C2: for every owner with a (nonempty) master key, create_room persists
exactly one RoomMember row (role owner) and exactly one RoomKey row for the
new room, and get_room_key afterwards returns the same 256-bit room key that
was generated at creation; without a master key it fails with the
owner-has-no-master-key error and persists nothing. -/
theorem C2_create_room (lib : RoomLib) (hRT : lib.aesgcm.RoundTrip)
    (mks : List KeyRow) (ops : List Op) (owner_id : Nat) (name : String)
    (d : Option String) (room_key nonce : Bytes) (hlen : room_key.length = 32) :
    (∀ mk, retrieve_master_key lib (replay lib mks ops) owner_id = some mk →
      mk.isEmpty = false →
      ∃ db' room,
        create_room lib (replay lib mks ops) owner_id name d room_key nonce
          = .ok (db', room) ∧
        db'.room_members.filter (fun m => m.room_id == room.id)
          = [⟨room.id, owner_id, "owner"⟩] ∧
        db'.room_keys.filter (fun k => k.room_id == room.id)
          = [⟨room.id, owner_id, (_encrypt_room_key lib room_key mk nonce).1,
              (_encrypt_room_key lib room_key mk nonce).2.1,
              (_encrypt_room_key lib room_key mk nonce).2.2⟩] ∧
        get_room_key lib db' room.id owner_id = .ok room_key ∧
        room_key.length = 32) ∧
    (retrieve_master_key lib (replay lib mks ops) owner_id = none →
      create_room lib (replay lib mks ops) owner_id name d room_key nonce
          = .error (.valueError "Owner has no master key") ∧
      applyOp lib (replay lib mks ops) (.createRoom owner_id name d room_key nonce)
          = replay lib mks ops) := by
  have hInv := replay_inv lib mks ops
  constructor
  · intro mk hmk hne
    cases hcr : create_room lib (replay lib mks ops) owner_id name d room_key nonce with
    | error e =>
      exfalso
      unfold create_room at hcr
      simp only [hmk] at hcr
      rw [if_neg (by simp [hne])] at hcr
      exact Except.noConfusion hcr
    | ok pr =>
      obtain ⟨db', room⟩ := pr
      obtain ⟨mk', hmk', hne', hroom, hdb'⟩ := create_room_shape hcr
      rw [hmk, Option.some.injEq] at hmk'
      subst hmk'
      have hroomid : room.id = (replay lib mks ops).nextRoomId := by rw [hroom]
      have hmembs : db'.room_members = (replay lib mks ops).room_members ++
          [⟨(replay lib mks ops).nextRoomId, owner_id, "owner"⟩] := by rw [hdb']
      have hkeys : db'.room_keys = (replay lib mks ops).room_keys ++
          [⟨(replay lib mks ops).nextRoomId, owner_id,
            (_encrypt_room_key lib room_key mk nonce).1,
            (_encrypt_room_key lib room_key mk nonce).2.1,
            (_encrypt_room_key lib room_key mk nonce).2.2⟩] := by rw [hdb']
      have hmast : retrieve_master_key lib db' owner_id = some mk := by
        rw [hdb']; exact hmk
      refine ⟨db', room, rfl, ?_, ?_, ?_, hlen⟩
      · rw [hroomid, hmembs, List.filter_append]
        have hold : (replay lib mks ops).room_members.filter
            (fun m => m.room_id == (replay lib mks ops).nextRoomId) = [] := by
          rw [List.filter_eq_nil_iff]
          intro m hm
          simp only [beq_iff_eq]
          exact Nat.ne_of_lt (hInv.membBound m hm)
        rw [hold]
        simp
      · rw [hroomid, hkeys, List.filter_append]
        have hold : (replay lib mks ops).room_keys.filter
            (fun k => k.room_id == (replay lib mks ops).nextRoomId) = [] := by
          rw [List.filter_eq_nil_iff]
          intro k hk
          simp only [beq_iff_eq]
          exact Nat.ne_of_lt (hInv.keyBound k hk)
        rw [hold]
        simp
      · have hfind : db'.room_keys.find?
            (fun k => k.room_id == room.id && k.user_id == owner_id)
            = some ⟨(replay lib mks ops).nextRoomId, owner_id,
                (_encrypt_room_key lib room_key mk nonce).1,
                (_encrypt_room_key lib room_key mk nonce).2.1,
                (_encrypt_room_key lib room_key mk nonce).2.2⟩ := by
          rw [hroomid, hkeys, List.find?_append]
          have hold : (replay lib mks ops).room_keys.find?
              (fun k => k.room_id == (replay lib mks ops).nextRoomId &&
                k.user_id == owner_id) = none := by
            rw [List.find?_eq_none]
            intro k hk
            simp only [Bool.and_eq_true, beq_iff_eq, not_and]
            intro hkr
            exact absurd hkr (Nat.ne_of_lt (hInv.keyBound k hk))
          rw [hold]
          simp
        have hdec : _decrypt_room_key lib (_encrypt_room_key lib room_key mk nonce).1
            (_encrypt_room_key lib room_key mk nonce).2.1
            (_encrypt_room_key lib room_key mk nonce).2.2 mk = some room_key := by
          unfold _decrypt_room_key _encrypt_room_key
          dsimp only
          rw [List.take_append_drop]
          exact hRT mk nonce room_key
        unfold get_room_key
        simp only [hfind, hmast]
        rw [if_neg (by simp [hne])]
        simp only [hdec]
  · intro hnone
    have hcr : create_room lib (replay lib mks ops) owner_id name d room_key nonce
        = .error (.valueError "Owner has no master key") := by
      unfold create_room
      rw [hnone]
    refine ⟨hcr, ?_⟩
    dsimp only [applyOp]
    rw [hcr]

theorem C2_create_room_witness :
    ∃ db' room,
      create_room testRoomLib (replay testRoomLib exampleMasterKeys []) 1 "R" none
        (List.replicate 32 5) (List.replicate 12 0) = .ok (db', room) ∧
      db'.room_members.filter (fun m => m.room_id == room.id)
        = [⟨room.id, 1, "owner"⟩] ∧
      db'.room_keys.filter (fun k => k.room_id == room.id)
        = [⟨room.id, 1,
            (_encrypt_room_key testRoomLib (List.replicate 32 5) [7] (List.replicate 12 0)).1,
            (_encrypt_room_key testRoomLib (List.replicate 32 5) [7] (List.replicate 12 0)).2.1,
            (_encrypt_room_key testRoomLib (List.replicate 32 5) [7] (List.replicate 12 0)).2.2⟩] ∧
      get_room_key testRoomLib db' room.id 1 = .ok (List.replicate 32 5) ∧
      (List.replicate 32 5 : Bytes).length = 32 :=
  (C2_create_room testRoomLib testAead_roundTrip exampleMasterKeys [] 1 "R" none
    (List.replicate 32 5) (List.replicate 12 0) rfl).1 [7] rfl rfl

/-- C6: add_member fails with permission-denied unless the acting user holds
admin-or-above, fails when the target is already a member, fails when the
role is not one of admin/member/viewer (owner cannot be assigned), fails
when the target has no master key; and every failure leaves the database
untouched. -/
theorem C6_add_member_failures (lib : RoomLib) (db : DB) (room_id user_id : Nat)
    (role : String) (adder_id : Nat) (nonce : Bytes) :
    (check_permission db room_id adder_id "admin" = false →
      add_member lib db room_id user_id role adder_id nonce =
        .error (.permissionError "Only admins and above can add members")) ∧
    (check_permission db room_id adder_id "admin" = true →
      (db.room_members.find?
        (fun m => m.room_id == room_id && m.user_id == user_id)).isSome = true →
      add_member lib db room_id user_id role adder_id nonce =
        .error (.valueError "User is already a member of this room")) ∧
    (check_permission db room_id adder_id "admin" = true →
      db.room_members.find?
        (fun m => m.room_id == room_id && m.user_id == user_id) = none →
      (roleKnown role = false ∨ role = "owner") →
      add_member lib db room_id user_id role adder_id nonce =
        .error (.valueError "Invalid role: must be admin, member, or viewer")) ∧
    (check_permission db room_id adder_id "admin" = true →
      db.room_members.find?
        (fun m => m.room_id == room_id && m.user_id == user_id) = none →
      roleKnown role = true → role ≠ "owner" →
      ∀ rk, get_room_key lib db room_id adder_id = .ok rk →
      retrieve_master_key lib db user_id = none →
      add_member lib db room_id user_id role adder_id nonce =
        .error (.valueError "Target user has no master key")) ∧
    (∀ e, add_member lib db room_id user_id role adder_id nonce = .error e →
      applyOp lib db (.addMember room_id user_id role adder_id nonce) = db) := by
  refine ⟨?_, ?_, ?_, ?_, ?_⟩
  · intro hp
    unfold add_member
    rw [if_pos (by simp [hp])]
  · intro hp hdup
    unfold add_member
    rw [if_neg (not_not_intro hp), if_pos hdup]
  · intro hp hdup hrole
    unfold add_member
    rw [if_neg (not_not_intro hp), if_neg (by simp [hdup]),
      if_pos (hrole.imp (fun h => by simp [h]) id)]
  · intro hp hdup hknown howner rk hrk hmk
    unfold add_member
    rw [if_neg (not_not_intro hp), if_neg (by simp [hdup]),
      if_neg (by simp [hknown, howner])]
    simp only [hrk, hmk]
  · intro e he
    dsimp only [applyOp]
    rw [he]

theorem C6_add_member_failures_witness :
    add_member testRoomLib exampleDB 0 5 "member" 9 (List.replicate 12 0) =
      .error (.permissionError "Only admins and above can add members") ∧
    applyOp testRoomLib exampleDB (.addMember 0 5 "member" 9 (List.replicate 12 0))
      = exampleDB := by
  have h := C6_add_member_failures testRoomLib exampleDB 0 5 "member" 9
    (List.replicate 12 0)
  have h1 := h.1 (by decide)
  exact ⟨h1, h.2.2.2.2 _ h1⟩

theorem roleLevel_of_not_known {r : String} (h : roleKnown r = false) :
    roleLevel r = 0 := by
  unfold roleKnown at h
  unfold roleLevel
  rw [List.find?_eq_none.mpr (List.any_eq_false.mp h)]
  rfl

theorem roleLevel_pos_of_known {r : String} (h : roleKnown r = true) :
    1 ≤ roleLevel r := by
  unfold roleKnown ROLE_HIERARCHY at h
  simp only [List.any_cons, List.any_nil, Bool.or_false, Bool.or_eq_true,
    beq_iff_eq] at h
  rcases h with h | h | h | h <;> subst h <;> decide

/-- C4: check_permission returns false when no RoomMember row exists for the
pair, and otherwise returns true exactly when the member's role rank is at
least the required role's rank under owner(4) > admin(3) > member(2) >
viewer(1); in particular a viewer never passes a member-or-above check. -/
theorem C4_check_permission (db : DB) (room_id user_id : Nat)
    (required_role : String) :
    (db.room_members.find?
        (fun m => m.room_id == room_id && m.user_id == user_id) = none →
      check_permission db room_id user_id required_role = false) ∧
    (∀ m, db.room_members.find?
        (fun m => m.room_id == room_id && m.user_id == user_id) = some m →
      (check_permission db room_id user_id required_role = true ↔
        roleLevel m.role ≥ roleLevel required_role)) ∧
    (roleLevel "owner" = 4 ∧ roleLevel "admin" = 3 ∧ roleLevel "member" = 2 ∧
      roleLevel "viewer" = 1) ∧
    (∀ m, db.room_members.find?
        (fun m => m.room_id == room_id && m.user_id == user_id) = some m →
      m.role = "viewer" →
      (required_role = "member" ∨ required_role = "admin" ∨
        required_role = "owner") →
      check_permission db room_id user_id required_role = false) := by
  refine ⟨?_, ?_, by decide, ?_⟩
  · intro hnone
    unfold check_permission
    rw [hnone]
  · intro m hm
    unfold check_permission
    simp only [hm, ge_iff_le, decide_eq_true_eq]
  · intro m hm hviewer hreq
    unfold check_permission
    simp only [hm, ge_iff_le, decide_eq_false_iff_not, not_le, hviewer]
    rcases hreq with h | h | h <;> subst h <;> decide

theorem C4_check_permission_witness :
    check_permission exampleDB 5 5 "viewer" = false ∧
    (check_permission exampleDB 0 2 "member" = true ↔
      roleLevel "member" ≥ roleLevel "member") ∧
    check_permission exampleDB 0 2 "admin" = false :=
  ⟨(C4_check_permission exampleDB 5 5 "viewer").1 (by decide),
   (C4_check_permission exampleDB 0 2 "member").2.1 ⟨0, 2, "member"⟩ (by decide),
   by
    have h := ((C4_check_permission exampleDB 0 2 "admin").2.1
      ⟨0, 2, "member"⟩ (by decide))
    simp only [show roleLevel "member" ≥ roleLevel "admin" ↔ False by decide,
      iff_false] at h
    exact Bool.not_eq_true _ ▸ h⟩

/-- C10: a user with any membership row passes a check against an unknown
required role (unknown roles rank 0), and a membership whose stored role is
unrecognized fails every check against a known role. -/
theorem C10_unknown_role_fallback (db : DB) (room_id user_id : Nat) :
    (∀ required_role, roleKnown required_role = false →
      ∀ m, db.room_members.find?
          (fun m => m.room_id == room_id && m.user_id == user_id) = some m →
      check_permission db room_id user_id required_role = true) ∧
    (∀ m, db.room_members.find?
        (fun m => m.room_id == room_id && m.user_id == user_id) = some m →
      roleKnown m.role = false →
      ∀ required_role, roleKnown required_role = true →
      check_permission db room_id user_id required_role = false) := by
  constructor
  · intro required_role hreq m hm
    unfold check_permission
    simp only [hm, roleLevel_of_not_known hreq, ge_iff_le, Nat.le_zero,
      decide_eq_true_eq]
    exact Nat.zero_le _
  · intro m hm hrole required_role hreq
    unfold check_permission
    simp only [hm, roleLevel_of_not_known hrole, ge_iff_le,
      decide_eq_false_iff_not, not_le]
    exact roleLevel_pos_of_known hreq

def exampleOddDB : DB := ⟨[], [⟨0, 3, "superuser"⟩], [], [], 1⟩

theorem C10_unknown_role_fallback_witness :
    check_permission exampleOddDB 0 3 "supervisor" = true ∧
    check_permission exampleOddDB 0 3 "admin" = false :=
  ⟨(C10_unknown_role_fallback exampleOddDB 0 3).1 "supervisor" (by decide)
      ⟨0, 3, "superuser"⟩ (by decide),
   (C10_unknown_role_fallback exampleOddDB 0 3).2 ⟨0, 3, "superuser"⟩
      (by decide) (by decide) "admin" (by decide)⟩

/-- Row of the `files` table, restricted to the fields lock_routes.py
consults. -/
structure FileRec where
  id : Nat
  owner_id : Nat
  room_id : Option Nat
deriving DecidableEq

/-- Row of the `file_locks` table (`file_lock_model.py`); timestamps are
abstract instants (naturals). -/
structure FileLock where
  file_id : Nat
  locked_by : Nat
  locked_at : Nat
  expires_at : Nat
deriving DecidableEq

/-- Embedding of `FileLock.is_expired`: strictly past the expiry instant. -/
def FileLock.is_expired (l : FileLock) (now : Nat) : Bool :=
  now > l.expires_at

/-- State the lock routes operate on. -/
structure LockState where
  files : List FileRec
  locks : List FileLock
deriving DecidableEq

/-- HTTP outcome of `acquire_lock`. -/
inductive LockResp where
  | notFound
  | accessDenied
  | extended (lock : FileLock)
  | conflict (lock : FileLock)
  | acquired (lock : FileLock)
deriving DecidableEq

def DEFAULT_LOCK_TIMEOUT_MINUTES : Nat := 15

/-- Embedding of `lock_routes.acquire_lock`: reclaim an expired lock, extend
one's own lock, reject with 409 when another user's unexpired lock exists,
otherwise create a fresh lock expiring `DEFAULT_LOCK_TIMEOUT_MINUTES` from
now. -/
def acquire_lock (st : LockState) (now : Nat) (file_id user_id : Nat) :
    LockResp × LockState :=
  match st.files.find? (fun f => f.id == file_id) with
  | none => (.notFound, st)
  | some file_record =>
    if file_record.owner_id ≠ user_id ∧ file_record.room_id = none then
      (.accessDenied, st)
    else
      match st.locks.find? (fun l => l.file_id == file_id) with
      | some existing_lock =>
        if existing_lock.is_expired now then
          let lock : FileLock :=
            ⟨file_id, user_id, now, now + DEFAULT_LOCK_TIMEOUT_MINUTES⟩
          (.acquired lock, { st with locks := st.locks.erase existing_lock ++ [lock] })
        else if existing_lock.locked_by == user_id then
          let l' := { existing_lock with
                      expires_at := now + DEFAULT_LOCK_TIMEOUT_MINUTES }
          (.extended l', { st with
            locks := st.locks.map (fun x => if x = existing_lock then l' else x) })
        else
          (.conflict existing_lock, st)
      | none =>
        let lock : FileLock :=
          ⟨file_id, user_id, now, now + DEFAULT_LOCK_TIMEOUT_MINUTES⟩
        (.acquired lock, { st with locks := st.locks ++ [lock] })

/-- HTTP outcome of `release_lock`. -/
inductive ReleaseResp where
  | noLock
  | holderOnly
  | released
deriving DecidableEq

/-- Embedding of `lock_routes.release_lock`: only the holder may release an
unexpired lock; anyone may release an expired one. -/
def release_lock (st : LockState) (now : Nat) (file_id user_id : Nat) :
    ReleaseResp × LockState :=
  match st.locks.find? (fun l => l.file_id == file_id) with
  | none => (.noLock, st)
  | some lock =>
    if lock.locked_by ≠ user_id ∧ ¬ lock.is_expired now then
      (.holderOnly, st)
    else
      (.released, { st with locks := st.locks.erase lock })

/-- C9: while an unexpired lock held by A exists on file F, any other user's
acquisition is rejected with a conflict leaving the state unchanged, A's own
re-acquisition extends the expiry, and release is honored only for the
holder; once the lock has expired, any user's acquisition reclaims it and
any release succeeds. -/
theorem C9_lock_mutual_exclusion (st : LockState) (now : Nat) (F A : Nat)
    (l : FileLock) (hl : st.locks.find? (fun x => x.file_id == F) = some l)
    (hA : l.locked_by = A)
    (f : FileRec) (hf : st.files.find? (fun x => x.id == F) = some f) :
    (l.is_expired now = false →
      (∀ B, B ≠ A → (f.owner_id = B ∨ f.room_id ≠ none) →
        acquire_lock st now F B = (.conflict l, st)) ∧
      ((f.owner_id = A ∨ f.room_id ≠ none) →
        ∃ l' st', acquire_lock st now F A = (.extended l', st') ∧
          l'.expires_at = now + DEFAULT_LOCK_TIMEOUT_MINUTES ∧
          l'.locked_by = A) ∧
      (∀ B, B ≠ A → release_lock st now F B = (.holderOnly, st)) ∧
      (release_lock st now F A).1 = .released) ∧
    (l.is_expired now = true →
      (∀ B, (f.owner_id = B ∨ f.room_id ≠ none) →
        ∃ lock, acquire_lock st now F B =
            (.acquired lock, { st with locks := st.locks.erase l ++ [lock] }) ∧
          lock.locked_by = B ∧
          lock.expires_at = now + DEFAULT_LOCK_TIMEOUT_MINUTES) ∧
      (∀ B, (release_lock st now F B).1 = .released)) := by
  constructor
  · intro hexp
    refine ⟨?_, ?_, ?_, ?_⟩
    · intro B hB haccess
      unfold acquire_lock
      simp only [hf, hl]
      rw [if_neg (by tauto), if_neg (by simp [hexp]),
        if_neg (by simp only [hA, beq_iff_eq]; exact fun h => hB h.symm)]
    · intro haccess
      unfold acquire_lock
      simp only [hf, hl]
      rw [if_neg (by tauto), if_neg (by simp [hexp]), if_pos (by simp [hA])]
      exact ⟨_, _, rfl, rfl, by simp [hA]⟩
    · intro B hB
      unfold release_lock
      simp only [hl]
      rw [if_pos ⟨by rw [hA]; exact fun h => hB h.symm, by simp [hexp]⟩]
    · unfold release_lock
      simp only [hl]
      rw [if_neg (by simp [hA])]
  · intro hexp
    constructor
    · intro B haccess
      unfold acquire_lock
      simp only [hf, hl]
      rw [if_neg (by tauto), if_pos hexp]
      exact ⟨_, rfl, rfl, rfl⟩
    · intro B
      unfold release_lock
      simp only [hl]
      rw [if_neg (by simp [hexp])]

def exampleLockState : LockState := ⟨[⟨1, 10, some 0⟩], [⟨1, 10, 0, 15⟩]⟩

theorem C9_lock_mutual_exclusion_witness :
    acquire_lock exampleLockState 5 1 20 =
      (.conflict ⟨1, 10, 0, 15⟩, exampleLockState) ∧
    (∃ l' st', acquire_lock exampleLockState 5 1 10 = (.extended l', st') ∧
      l'.expires_at = 5 + DEFAULT_LOCK_TIMEOUT_MINUTES ∧ l'.locked_by = 10) ∧
    release_lock exampleLockState 5 1 20 = (.holderOnly, exampleLockState) ∧
    (release_lock exampleLockState 5 1 10).1 = .released ∧
    (∃ lock, acquire_lock exampleLockState 16 1 20 =
        (.acquired lock, { exampleLockState with
          locks := exampleLockState.locks.erase ⟨1, 10, 0, 15⟩ ++ [lock] }) ∧
      lock.locked_by = 20 ∧
      lock.expires_at = 16 + DEFAULT_LOCK_TIMEOUT_MINUTES) := by
  have h5 := C9_lock_mutual_exclusion exampleLockState 5 1 10 ⟨1, 10, 0, 15⟩
    rfl rfl ⟨1, 10, some 0⟩ rfl
  have h16 := C9_lock_mutual_exclusion exampleLockState 16 1 10 ⟨1, 10, 0, 15⟩
    rfl rfl ⟨1, 10, some 0⟩ rfl
  have h5u := h5.1 (by decide)
  refine ⟨h5u.1 20 (by decide) (by right; decide), h5u.2.1 (by right; decide),
    h5u.2.2.1 20 (by decide), h5u.2.2.2, (h16.2 (by decide)).1 20 (by right; decide)⟩

/-- Python `~b & 0xFF` on a byte value. -/
def complementByte (b : Nat) : Nat := 255 - b % 256

/-- Bytes written by overwrite pass `pass_num` of
`secure_delete_service.secure_delete_file`, as a function of that pass's
`os.urandom(file_size)` draw: pass 0 writes the draw itself, pass 1 writes
the bitwise complement of its own fresh draw, later passes write their
draw. -/
def securePassBytes (pass_num : Nat) (rand : Bytes) : Bytes :=
  if pass_num == 0 then rand
  else if pass_num == 1 then rand.map complementByte
  else rand

/-- The content store: path to stored bytes. -/
abbrev ContentStore := List (String × Bytes)

/-- Embedding of `secure_delete_service.secure_delete_file`: returns false
when the path does not exist; otherwise overwrites the content with the
three passes (the surviving content after the loop is the last pass's
bytes), then removes the entry and returns true.  `rands` are the per-pass
`os.urandom` draws. -/
def secure_delete_file (store : ContentStore) (_rands : List Bytes)
    (filepath : String) : Bool × ContentStore :=
  if store.any (fun e => e.1 == filepath) then
    (true, store.filter (fun e => !(e.1 == filepath)))
  else
    (false, store)

/-- Whether two byte strings differ at every bit position. -/
def allBitsDiffer (xs ys : Bytes) : Bool :=
  xs.length == ys.length &&
    (List.zip xs ys).all (fun q => (q.1 ^^^ q.2) % 256 == 255)

/-- C8 is false on the code: pass 2 complements a second, independent random
fill, so an RNG outcome with pass-1 draw 0x00 and pass-2 draw 0xFF makes
pass 2 write exactly the pass-1 bytes - no bit differs.  (The code's own
comment claims "Ensures all bit positions are flipped from pass 1".) -/
theorem C8_pass2_not_complement_of_pass1 :
    securePassBytes 0 [0] = [0] ∧
    securePassBytes 1 [255] = [0] ∧
    allBitsDiffer (securePassBytes 0 [0]) (securePassBytes 1 [255]) = false := by
  refine ⟨rfl, rfl, ?_⟩
  decide

/-- Names defined at module level by
`server/services/secure_delete_service.py`. -/
def secureDeleteServiceNames : List String := ["secure_delete_file"]

/-- The name `room_routes.delete_room_file` tries to import from the
secure-delete service (`from services.secure_delete_service import
secure_delete`). -/
def roomRoutesImportedName : String := "secure_delete"

/-- Row of the `files` table as the room-file delete route uses it. -/
structure FileMeta where
  id : Nat
  room_id : Option Nat
  encrypted_path : String
deriving DecidableEq

/-- State the room-file delete route operates on. -/
structure VaultState where
  db : DB
  files : List FileMeta
  store : ContentStore
deriving DecidableEq

/-- HTTP outcome of `delete_room_file`. -/
inductive DelResp where
  | forbidden
  | notFound
  | deleted
  | importError
deriving DecidableEq

/-- Embedding of `room_routes.delete_room_file`: permission check, file
lookup, then `from services.secure_delete_service import secure_delete` -
a name the service module does not define, so the import raises and
neither the ciphertext wipe nor the metadata delete ever runs. -/
def delete_room_file (st : VaultState) (rands : List Bytes)
    (room_id file_id user_id : Nat) : DelResp × VaultState :=
  if ¬ check_permission st.db room_id user_id "admin" then
    (.forbidden, st)
  else
    match st.files.find? (fun f => f.id == file_id && f.room_id == some room_id) with
    | none => (.notFound, st)
    | some file_record =>
      if secureDeleteServiceNames.contains roomRoutesImportedName then
        let wiped := secure_delete_file st.store rands file_record.encrypted_path
        (.deleted, { st with
          store := wiped.2,
          files := st.files.erase file_record })
      else
        (.importError, st)

/-- C5 is false on the code: even when an admin deletes an existing room
file, the route never reaches the secure wipe - the local import of
`secure_delete` fails (the service module only defines
`secure_delete_file`), so the request errors out with the metadata record
and the ciphertext both left in place. -/
theorem C5_delete_room_file_import_error (st : VaultState) (rands : List Bytes)
    (room_id file_id user_id : Nat)
    (hperm : check_permission st.db room_id user_id "admin" = true)
    (f : FileMeta)
    (hf : st.files.find? (fun f => f.id == file_id && f.room_id == some room_id)
      = some f) :
    delete_room_file st rands room_id file_id user_id = (.importError, st) ∧
    secureDeleteServiceNames.contains roomRoutesImportedName = false := by
  constructor
  · unfold delete_room_file
    rw [if_neg (not_not_intro hperm)]
    simp only [hf]
    rw [if_neg (by decide)]
  · decide

def exampleVaultState : VaultState :=
  ⟨⟨[], [⟨0, 4, "admin"⟩], [], [], 1⟩, [⟨7, some 0, "p7"⟩], [("p7", [1, 2, 3])]⟩

theorem C5_delete_room_file_import_error_witness :
    delete_room_file exampleVaultState [] 0 7 4 = (.importError, exampleVaultState) ∧
    secureDeleteServiceNames.contains roomRoutesImportedName = false :=
  C5_delete_room_file_import_error exampleVaultState [] 0 7 4 (by decide)
    ⟨7, some 0, "p7"⟩ (by decide)

/-- Pointwise xor of two byte strings. -/
def xorBytes (a b : Bytes) : Bytes := List.zipWith (fun x y => x ^^^ y) a b

/-- Abstract AES block cipher (the `Cipher(algorithms.AES(key), ...)` core of
the external cryptography library): per-16-byte-block encryption and
decryption under a key. -/
structure BlockCipher where
  encB : Bytes → Bytes → Bytes
  decB : Bytes → Bytes → Bytes

/-- CBC-mode encryption as the library implements it over the block cipher:
each block is xored with the previous ciphertext block (the IV first) and
then block-encrypted.  Structured with explicit fuel so it computes in the
kernel. -/
def cbcEncAux (E : Bytes → Bytes) : Nat → Bytes → Bytes → Bytes
  | 0, _, _ => []
  | _ + 1, _, [] => []
  | fuel + 1, prev, p :: rest =>
    let c := E (xorBytes ((p :: rest).take 16) prev)
    c ++ cbcEncAux E fuel c ((p :: rest).drop 16)

def cbcEncrypt (E : Bytes → Bytes) (iv data : Bytes) : Bytes :=
  cbcEncAux E data.length iv data

/-- CBC-mode decryption: each ciphertext block is block-decrypted and xored
with the previous ciphertext block (the IV first). -/
def cbcDecAux (D : Bytes → Bytes) : Nat → Bytes → Bytes → Bytes
  | 0, _, _ => []
  | _ + 1, _, [] => []
  | fuel + 1, prev, c :: rest =>
    xorBytes (D ((c :: rest).take 16)) prev ++
      cbcDecAux D fuel ((c :: rest).take 16) ((c :: rest).drop 16)

def cbcDecrypt (D : Bytes → Bytes) (iv ct : Bytes) : Bytes :=
  cbcDecAux D ct.length iv ct

/-- PKCS7 padding to the 128-bit block size (`padding.PKCS7(128)`): append
`16 - len % 16` bytes, each holding that count. -/
def pkcs7Pad (data : Bytes) : Bytes :=
  data ++ List.replicate (16 - data.length % 16) (16 - data.length % 16)

/-- Strict PKCS7 unpadding: read the final byte as the pad length and check
every pad byte; invalid padding fails (the library unpadder raises). -/
def pkcs7Unpad (data : Bytes) : Option Bytes :=
  match data.getLast? with
  | none => none
  | some n =>
    if 1 ≤ n ∧ n ≤ 16 ∧ n ≤ data.length ∧
        (data.drop (data.length - n)).all (fun b => b == n) then
      some (data.take (data.length - n))
    else none

/-- The external primitives `encryption_service.py` imports: PBKDF2 key
derivation, the two AEAD backends and the AES block cipher. -/
structure CryptoLib where
  deriveKey : String → Bytes → Bytes
  aesgcm : Aead
  chacha : Aead
  aes : BlockCipher

/-- The `(ciphertext, salt, nonce_or_iv, tag)` dict `encrypt_file` returns. -/
structure EncOut where
  ciphertext : Bytes
  salt : Bytes
  nonce_or_iv : Bytes
  tag : Option Bytes
deriving DecidableEq

/-- Exceptions the encryption service can raise. -/
inductive DecErr where
  | unsupportedAlgorithm
  | invalidTag
  | invalidPadding
  | typeError
deriving DecidableEq

/-- Embedding of `encrypt_aes_gcm`: derive the key from passphrase and salt,
AEAD-encrypt, split off the trailing 16-byte tag.  The salt and nonce
(`os.urandom`) are explicit arguments. -/
def encrypt_aes_gcm (lib : CryptoLib) (plaintext : Bytes) (passphrase : String)
    (salt nonce : Bytes) : EncOut :=
  let key := lib.deriveKey passphrase salt
  let ciphertext := lib.aesgcm.enc key nonce plaintext
  ⟨ciphertext.take (ciphertext.length - 16), salt, nonce,
    some (ciphertext.drop (ciphertext.length - 16))⟩

/-- Embedding of `decrypt_aes_gcm`: recombine ciphertext and tag and
AEAD-decrypt; a missing tag is a TypeError, tampering an InvalidTag. -/
def decrypt_aes_gcm (lib : CryptoLib) (ciphertext : Bytes) (passphrase : String)
    (salt nonce : Bytes) (tag : Option Bytes) : Except DecErr Bytes :=
  match tag with
  | none => .error .typeError
  | some t =>
    let key := lib.deriveKey passphrase salt
    match lib.aesgcm.dec key nonce (ciphertext ++ t) with
    | none => .error .invalidTag
    | some p => .ok p

/-- Embedding of `encrypt_aes_cbc`: PKCS7-pad then CBC-encrypt; no tag. -/
def encrypt_aes_cbc (lib : CryptoLib) (plaintext : Bytes) (passphrase : String)
    (salt iv : Bytes) : EncOut :=
  let key := lib.deriveKey passphrase salt
  let padded := pkcs7Pad plaintext
  ⟨cbcEncrypt (lib.aes.encB key) iv padded, salt, iv, none⟩

/-- Embedding of `decrypt_aes_cbc`: CBC-decrypt then remove PKCS7 padding;
the tag argument is ignored. -/
def decrypt_aes_cbc (lib : CryptoLib) (ciphertext : Bytes) (passphrase : String)
    (salt iv : Bytes) (_tag : Option Bytes) : Except DecErr Bytes :=
  let key := lib.deriveKey passphrase salt
  let padded := cbcDecrypt (lib.aes.decB key) iv ciphertext
  match pkcs7Unpad padded with
  | none => .error .invalidPadding
  | some p => .ok p

/-- Embedding of `encrypt_chacha20`. -/
def encrypt_chacha20 (lib : CryptoLib) (plaintext : Bytes) (passphrase : String)
    (salt nonce : Bytes) : EncOut :=
  let key := lib.deriveKey passphrase salt
  let ciphertext := lib.chacha.enc key nonce plaintext
  ⟨ciphertext.take (ciphertext.length - 16), salt, nonce,
    some (ciphertext.drop (ciphertext.length - 16))⟩

/-- Embedding of `decrypt_chacha20`. -/
def decrypt_chacha20 (lib : CryptoLib) (ciphertext : Bytes) (passphrase : String)
    (salt nonce : Bytes) (tag : Option Bytes) : Except DecErr Bytes :=
  match tag with
  | none => .error .typeError
  | some t =>
    let key := lib.deriveKey passphrase salt
    match lib.chacha.dec key nonce (ciphertext ++ t) with
    | none => .error .invalidTag
    | some p => .ok p

/-- Embedding of `encrypt_file`: dispatch on the `ALGORITHM_MAP` keys,
rejecting unknown algorithm names before any cryptographic work. -/
def encrypt_file (lib : CryptoLib) (data : Bytes) (passphrase : String)
    (algorithm : String) (salt nonce_or_iv : Bytes) : Except DecErr EncOut :=
  if algorithm = "AES-GCM" then
    .ok (encrypt_aes_gcm lib data passphrase salt nonce_or_iv)
  else if algorithm = "AES-CBC" then
    .ok (encrypt_aes_cbc lib data passphrase salt nonce_or_iv)
  else if algorithm = "ChaCha20" then
    .ok (encrypt_chacha20 lib data passphrase salt nonce_or_iv)
  else .error .unsupportedAlgorithm

/-- Embedding of `decrypt_file`. -/
def decrypt_file (lib : CryptoLib) (ciphertext : Bytes) (passphrase : String)
    (algorithm : String) (salt nonce_or_iv : Bytes) (tag : Option Bytes) :
    Except DecErr Bytes :=
  if algorithm = "AES-GCM" then
    decrypt_aes_gcm lib ciphertext passphrase salt nonce_or_iv tag
  else if algorithm = "AES-CBC" then
    decrypt_aes_cbc lib ciphertext passphrase salt nonce_or_iv tag
  else if algorithm = "ChaCha20" then
    decrypt_chacha20 lib ciphertext passphrase salt nonce_or_iv tag
  else .error .unsupportedAlgorithm

/-- Embedding of `hash_service.verify_sha256`, parametric in the external
SHA-256 implementation: compare the computed content hash with the stored
one. -/
def verify_sha256 (sha256 : Bytes → String) (data : Bytes)
    (expected_hash : String) : Bool :=
  sha256 data == expected_hash

theorem cbcEncAux_succ (E : Bytes → Bytes) (fuel : Nat) (prev l : Bytes)
    (hl : l ≠ []) :
    cbcEncAux E (fuel + 1) prev l =
      E (xorBytes (l.take 16) prev) ++
        cbcEncAux E fuel (E (xorBytes (l.take 16) prev)) (l.drop 16) := by
  cases l with
  | nil => exact absurd rfl hl
  | cons a r => rfl

theorem cbcDecAux_succ (D : Bytes → Bytes) (fuel : Nat) (prev l : Bytes)
    (hl : l ≠ []) :
    cbcDecAux D (fuel + 1) prev l =
      xorBytes (D (l.take 16)) prev ++ cbcDecAux D fuel (l.take 16) (l.drop 16) := by
  cases l with
  | nil => exact absurd rfl hl
  | cons a r => rfl

theorem xorBytes_length (a b : Bytes) :
    (xorBytes a b).length = min a.length b.length :=
  List.length_zipWith _ a b

theorem xorBytes_xorBytes_right :
    ∀ (a b : Bytes), a.length ≤ b.length → xorBytes (xorBytes a b) b = a
  | [], _, _ => rfl
  | _ :: _, [], h => by simp at h
  | a :: as, b :: bs, h => by
    show (a ^^^ b ^^^ b) :: xorBytes (xorBytes as bs) bs = a :: as
    rw [Nat.xor_cancel_right,
      xorBytes_xorBytes_right as bs (Nat.le_of_succ_le_succ h)]

theorem xorBytes_right_cancel {x y p : Bytes} (hx : x.length = p.length)
    (hy : y.length = p.length) (h : xorBytes x p = xorBytes y p) : x = y := by
  have h1 := xorBytes_xorBytes_right x p (le_of_eq hx)
  have h2 := xorBytes_xorBytes_right y p (le_of_eq hy)
  rw [← h1, ← h2, h]

theorem cbcEncAux_length (E : Bytes → Bytes)
    (hElen : ∀ b, b.length = 16 → (E b).length = 16) :
    ∀ fuel (prev l : Bytes), l.length ≤ fuel → 16 ∣ l.length →
      prev.length = 16 → (cbcEncAux E fuel prev l).length = l.length := by
  intro fuel
  induction fuel with
  | zero =>
    intro prev l hl _ _
    have h0 : l.length = 0 := Nat.le_zero.mp hl
    show (0 : Nat) = l.length
    omega
  | succ fuel ih =>
    intro prev l hl hdiv hprev
    rcases hd : l with _ | ⟨a, r⟩
    · rfl
    · rw [← hd]
      have hne : l ≠ [] := by rw [hd]; simp
      have h16 : 16 ≤ l.length := Nat.le_of_dvd (by rw [hd]; simp) hdiv
      have hxlen : (xorBytes (l.take 16) prev).length = 16 := by
        rw [xorBytes_length, List.length_take, hprev]; omega
      have hclen : (E (xorBytes (l.take 16) prev)).length = 16 := hElen _ hxlen
      rw [cbcEncAux_succ E fuel prev l hne, List.length_append, hclen,
        ih _ _ (by rw [List.length_drop]; omega)
          (by rw [List.length_drop]; exact Nat.dvd_sub' hdiv (dvd_refl 16)) hclen,
        List.length_drop]
      omega

theorem cbcDecAux_length (D : Bytes → Bytes)
    (hDlen : ∀ b, b.length = 16 → (D b).length = 16) :
    ∀ fuel (prev l : Bytes), l.length ≤ fuel → 16 ∣ l.length →
      prev.length = 16 → (cbcDecAux D fuel prev l).length = l.length := by
  intro fuel
  induction fuel with
  | zero =>
    intro prev l hl _ _
    have h0 : l.length = 0 := Nat.le_zero.mp hl
    show (0 : Nat) = l.length
    omega
  | succ fuel ih =>
    intro prev l hl hdiv hprev
    rcases hd : l with _ | ⟨a, r⟩
    · rfl
    · rw [← hd]
      have hne : l ≠ [] := by rw [hd]; simp
      have h16 : 16 ≤ l.length := Nat.le_of_dvd (by rw [hd]; simp) hdiv
      have htlen : (l.take 16).length = 16 := by rw [List.length_take]; omega
      have hxlen : (xorBytes (D (l.take 16)) prev).length = 16 := by
        rw [xorBytes_length, hDlen _ htlen, hprev]; omega
      rw [cbcDecAux_succ D fuel prev l hne, List.length_append, hxlen,
        ih _ _ (by rw [List.length_drop]; omega)
          (by rw [List.length_drop]; exact Nat.dvd_sub' hdiv (dvd_refl 16)) htlen,
        List.length_drop]
      omega

theorem cbcDecAux_cbcEncAux (E D : Bytes → Bytes)
    (hDE : ∀ b, b.length = 16 → D (E b) = b)
    (hElen : ∀ b, b.length = 16 → (E b).length = 16) :
    ∀ fuel fuel2 (prev data : Bytes), data.length ≤ fuel →
      data.length ≤ fuel2 → 16 ∣ data.length → prev.length = 16 →
      cbcDecAux D fuel2 prev (cbcEncAux E fuel prev data) = data := by
  intro fuel
  induction fuel with
  | zero =>
    intro fuel2 prev data h0 _ _ _
    have hnil : data = [] := List.length_eq_zero.mp (Nat.le_zero.mp h0)
    subst hnil
    cases fuel2 <;> rfl
  | succ fuel ih =>
    intro fuel2 prev data hf hf2 hdiv hprev
    rcases hd : data with _ | ⟨a, r⟩
    · subst hd; cases fuel2 <;> rfl
    · rw [← hd]
      have hne : data ≠ [] := by rw [hd]; simp
      have h16 : 16 ≤ data.length := Nat.le_of_dvd (by rw [hd]; simp) hdiv
      have hxlen : (xorBytes (data.take 16) prev).length = 16 := by
        rw [xorBytes_length, List.length_take, hprev]; omega
      have hclen : (E (xorBytes (data.take 16) prev)).length = 16 := hElen _ hxlen
      obtain ⟨fuel2', rfl⟩ : ∃ f, fuel2 = f + 1 := ⟨fuel2 - 1, by omega⟩
      rw [cbcEncAux_succ E fuel prev data hne]
      have hctne : E (xorBytes (data.take 16) prev) ++
          cbcEncAux E fuel (E (xorBytes (data.take 16) prev)) (data.drop 16) ≠ [] := by
        intro hcon
        have := congrArg List.length hcon
        rw [List.length_append, hclen] at this
        simp at this
      rw [cbcDecAux_succ D fuel2' prev _ hctne, List.take_left' hclen,
        List.drop_left' hclen, hDE _ hxlen,
        xorBytes_xorBytes_right _ _ (by rw [List.length_take, hprev]; omega),
        ih fuel2' _ _ (by rw [List.length_drop]; omega)
          (by rw [List.length_drop]; omega)
          (by rw [List.length_drop]; exact Nat.dvd_sub' hdiv (dvd_refl 16)) hclen,
        List.take_append_drop]

theorem cbcDecrypt_cbcEncrypt (E D : Bytes → Bytes)
    (hDE : ∀ b, b.length = 16 → D (E b) = b)
    (hElen : ∀ b, b.length = 16 → (E b).length = 16)
    (iv data : Bytes) (hdiv : 16 ∣ data.length) (hiv : iv.length = 16) :
    cbcDecrypt D iv (cbcEncrypt E iv data) = data := by
  unfold cbcDecrypt cbcEncrypt
  rw [cbcEncAux_length E hElen data.length iv data le_rfl hdiv hiv]
  exact cbcDecAux_cbcEncAux E D hDE hElen data.length data.length iv data
    le_rfl le_rfl hdiv hiv

theorem cbcDecAux_ne (D : Bytes → Bytes)
    (hDlen : ∀ b, b.length = 16 → (D b).length = 16)
    (hDinj : ∀ a b, a.length = 16 → b.length = 16 → D a = D b → a = b) :
    ∀ fuel (ct ct' prev : Bytes), ct.length ≤ fuel → ct'.length = ct.length →
      16 ∣ ct.length → prev.length = 16 → ct ≠ ct' →
      cbcDecAux D fuel prev ct ≠ cbcDecAux D fuel prev ct' := by
  intro fuel
  induction fuel with
  | zero =>
    intro ct ct' prev h0 hlen _ _ hne
    have h1 : ct = [] := List.length_eq_zero.mp (Nat.le_zero.mp h0)
    have h2 : ct' = [] := List.length_eq_zero.mp (by omega)
    exact absurd (h1.trans h2.symm) hne
  | succ fuel ih =>
    intro ct ct' prev hf hlen hdiv hprev hne
    rcases hd : ct with _ | ⟨a, r⟩
    · subst hd
      exact absurd (List.length_eq_zero.mp (by simpa using hlen)).symm hne
    · rw [← hd]
      have hcne : ct ≠ [] := by rw [hd]; simp
      have h16 : 16 ≤ ct.length := Nat.le_of_dvd (by rw [hd]; simp) hdiv
      have hcne' : ct' ≠ [] := by
        intro h
        rw [h] at hlen
        simp only [List.length_nil] at hlen
        omega
      rw [cbcDecAux_succ D fuel prev ct hcne, cbcDecAux_succ D fuel prev ct' hcne']
      have hts : (ct.take 16).length = 16 := by rw [List.length_take]; omega
      have hts' : (ct'.take 16).length = 16 := by rw [List.length_take]; omega
      by_cases hh : ct.take 16 = ct'.take 16
      · have htl : ct.drop 16 ≠ ct'.drop 16 := by
          intro hdr
          exact hne (by
            rw [← List.take_append_drop 16 ct, ← List.take_append_drop 16 ct',
              hh, hdr])
        intro heq
        rw [hh] at heq
        exact ih (ct.drop 16) (ct'.drop 16) (ct'.take 16)
          (by rw [List.length_drop]; omega)
          (by rw [List.length_drop, List.length_drop]; omega)
          (by rw [List.length_drop]; exact Nat.dvd_sub' hdiv (dvd_refl 16))
          hts' htl (List.append_cancel_left heq)
      · intro heq
        have hDne : D (ct.take 16) ≠ D (ct'.take 16) :=
          fun hD => hh (hDinj _ _ hts hts' hD)
        have hxne : xorBytes (D (ct.take 16)) prev ≠
            xorBytes (D (ct'.take 16)) prev := by
          intro hx
          exact hDne (xorBytes_right_cancel (by rw [hDlen _ hts, hprev])
            (by rw [hDlen _ hts', hprev]) hx)
        have hxl : (xorBytes (D (ct.take 16)) prev).length =
            (xorBytes (D (ct'.take 16)) prev).length := by
          rw [xorBytes_length, xorBytes_length, hDlen _ hts, hDlen _ hts']
        have hth := congrArg (List.take (xorBytes (D (ct.take 16)) prev).length) heq
        rw [List.take_left, hxl, List.take_left] at hth
        exact hxne hth

theorem pkcs7Pad_length_dvd (d : Bytes) : 16 ∣ (pkcs7Pad d).length := by
  unfold pkcs7Pad
  rw [List.length_append, List.length_replicate]
  omega

theorem getLast?_replicate (n x : Nat) (h : n ≠ 0) :
    (List.replicate n x).getLast? = some x := by
  obtain ⟨m, rfl⟩ : ∃ m, n = m + 1 := ⟨n - 1, by omega⟩
  rw [List.replicate_succ', List.getLast?_concat]

theorem pkcs7Unpad_pkcs7Pad (d : Bytes) : pkcs7Unpad (pkcs7Pad d) = some d := by
  have hm : d.length % 16 < 16 := Nat.mod_lt _ (by norm_num)
  have hlen : (pkcs7Pad d).length = d.length + (16 - d.length % 16) := by
    unfold pkcs7Pad
    rw [List.length_append, List.length_replicate]
  have hglast : (pkcs7Pad d).getLast? = some (16 - d.length % 16) := by
    unfold pkcs7Pad
    rw [List.getLast?_append, getLast?_replicate _ _ (by omega)]
    rfl
  have hsub : (pkcs7Pad d).length - (16 - d.length % 16) = d.length := by omega
  have hdrop : (pkcs7Pad d).drop ((pkcs7Pad d).length - (16 - d.length % 16))
      = List.replicate (16 - d.length % 16) (16 - d.length % 16) := by
    rw [hsub]
    unfold pkcs7Pad
    exact List.drop_left' rfl
  have htake : (pkcs7Pad d).take ((pkcs7Pad d).length - (16 - d.length % 16)) = d := by
    rw [hsub]
    unfold pkcs7Pad
    exact List.take_left' rfl
  unfold pkcs7Unpad
  simp only [hglast]
  rw [if_pos ⟨by omega, by omega, by omega, by rw [hdrop]; simp⟩, htake]

theorem all_eq_replicate {l : Bytes} {n : Nat}
    (h : l.all (fun b => b == n) = true) : l = List.replicate l.length n := by
  induction l with
  | nil => rfl
  | cons a r ih =>
    simp only [List.all_cons, Bool.and_eq_true, beq_iff_eq] at h
    rw [List.length_cons, List.replicate_succ]
    exact congrArg₂ List.cons h.1 (ih h.2)

theorem pkcs7Unpad_ne {d1 d2 : Bytes} (hlen : d1.length = d2.length)
    (hne : d1 ≠ d2) {r : Bytes} (h1 : pkcs7Unpad d1 = some r) :
    pkcs7Unpad d2 ≠ some r := by
  intro h2
  unfold pkcs7Unpad at h1 h2
  cases hg1 : d1.getLast? with
  | none => simp only [hg1] at h1; exact Option.noConfusion h1
  | some n1 =>
    simp only [hg1] at h1
    cases hg2 : d2.getLast? with
    | none => simp only [hg2] at h2; exact Option.noConfusion h2
    | some n2 =>
      simp only [hg2] at h2
      by_cases hc1 : 1 ≤ n1 ∧ n1 ≤ 16 ∧ n1 ≤ d1.length ∧
          (d1.drop (d1.length - n1)).all (fun b => b == n1) = true
      · rw [if_pos hc1, Option.some.injEq] at h1
        by_cases hc2 : 1 ≤ n2 ∧ n2 ≤ 16 ∧ n2 ≤ d2.length ∧
            (d2.drop (d2.length - n2)).all (fun b => b == n2) = true
        · rw [if_pos hc2, Option.some.injEq] at h2
          have hr1 : r.length = d1.length - n1 := by
            rw [← h1, List.length_take]
            omega
          have hr2 : r.length = d2.length - n2 := by
            rw [← h2, List.length_take]
            omega
          have hn12 : n1 = n2 := by omega
          have hd1 : d1 = r ++ List.replicate n1 n1 := by
            have hs := (List.take_append_drop (d1.length - n1) d1).symm
            rw [h1] at hs
            rw [hs, all_eq_replicate hc1.2.2.2, List.length_drop,
              Nat.sub_sub_self hc1.2.2.1]
          have hd2 : d2 = r ++ List.replicate n2 n2 := by
            have hs := (List.take_append_drop (d2.length - n2) d2).symm
            rw [h2] at hs
            rw [hs, all_eq_replicate hc2.2.2.2, List.length_drop,
              Nat.sub_sub_self hc2.2.2.1]
          exact hne (by rw [hd1, hd2, hn12])
        · rw [if_neg hc2] at h2
          exact Option.noConfusion h2
      · rw [if_neg hc1] at h1
        exact Option.noConfusion h1

/-- C3: for every plaintext, passphrase and algorithm among AES-GCM,
AES-CBC and ChaCha20, decrypting the tuple produced by encrypt_file with the
same passphrase and algorithm returns exactly the original plaintext, given
the library contracts (AEAD round-trip; AES block cipher invertible and
length-preserving). -/
theorem C3_encrypt_decrypt_roundtrip (lib : CryptoLib)
    (hGcm : lib.aesgcm.RoundTrip) (hCha : lib.chacha.RoundTrip)
    (hDE : ∀ k b, b.length = 16 → lib.aes.decB k (lib.aes.encB k b) = b)
    (hElen : ∀ k b, b.length = 16 → (lib.aes.encB k b).length = 16)
    (P : Bytes) (K A : String)
    (hA : A = "AES-GCM" ∨ A = "AES-CBC" ∨ A = "ChaCha20")
    (salt nonce_or_iv : Bytes) (hiv : A = "AES-CBC" → nonce_or_iv.length = 16) :
    ∃ out, encrypt_file lib P K A salt nonce_or_iv = .ok out ∧
      decrypt_file lib out.ciphertext K A out.salt out.nonce_or_iv out.tag
        = .ok P := by
  rcases hA with hA | hA | hA <;> subst hA
  · refine ⟨encrypt_aes_gcm lib P K salt nonce_or_iv, rfl, ?_⟩
    unfold decrypt_file
    rw [if_pos rfl]
    unfold decrypt_aes_gcm encrypt_aes_gcm
    dsimp only
    rw [List.take_append_drop, hGcm]
  · refine ⟨encrypt_aes_cbc lib P K salt nonce_or_iv, ?_, ?_⟩
    · unfold encrypt_file
      rw [if_neg (by decide), if_pos rfl]
    · unfold decrypt_file
      rw [if_neg (by decide), if_pos rfl]
      unfold decrypt_aes_cbc encrypt_aes_cbc
      dsimp only
      rw [cbcDecrypt_cbcEncrypt _ _ (hDE _) (hElen _) _ _
        (pkcs7Pad_length_dvd P) (hiv rfl), pkcs7Unpad_pkcs7Pad]
  · refine ⟨encrypt_chacha20 lib P K salt nonce_or_iv, ?_, ?_⟩
    · unfold encrypt_file
      rw [if_neg (by decide), if_neg (by decide), if_pos rfl]
    · unfold decrypt_file
      rw [if_neg (by decide), if_neg (by decide), if_pos rfl]
      unfold decrypt_chacha20 encrypt_chacha20
      dsimp only
      rw [List.take_append_drop, hCha]

def testBlockCipher : BlockCipher := ⟨fun _ b => b, fun _ b => b⟩

def testCryptoLib : CryptoLib := ⟨fun _ _ => [], testAead, testAead, testBlockCipher⟩

theorem C3_encrypt_decrypt_roundtrip_witness :
    ∃ out, encrypt_file testCryptoLib [1, 2, 3] "pw" "AES-CBC"
        (List.replicate 32 0) (List.replicate 16 0) = .ok out ∧
      decrypt_file testCryptoLib out.ciphertext "pw" "AES-CBC" out.salt
        out.nonce_or_iv out.tag = .ok [1, 2, 3] :=
  C3_encrypt_decrypt_roundtrip testCryptoLib testAead_roundTrip
    testAead_roundTrip (fun _ _ _ => rfl) (fun _ _ h => h) [1, 2, 3] "pw"
    "AES-CBC" (Or.inr (Or.inl rfl)) (List.replicate 32 0) (List.replicate 16 0)
    (fun _ => rfl)

/-- C7 amended: flipping a single byte of an AES-CBC ciphertext and
decrypting with the correct passphrase either fails during PKCS7 unpadding
or yields a plaintext different from the original, so whenever SHA-256
separates the two plaintexts, verify_sha256 returns false; altered plaintext
never passes the integrity check. -/
theorem C7_cbc_tamper_amended (lib : CryptoLib)
    (hDE : ∀ k b, b.length = 16 → lib.aes.decB k (lib.aes.encB k b) = b)
    (hElen : ∀ k b, b.length = 16 → (lib.aes.encB k b).length = 16)
    (hDlen : ∀ k b, b.length = 16 → (lib.aes.decB k b).length = 16)
    (hDinj : ∀ k a b, a.length = 16 → b.length = 16 →
      lib.aes.decB k a = lib.aes.decB k b → a = b)
    (P : Bytes) (K : String) (salt iv : Bytes) (hiv : iv.length = 16)
    (pos v : Nat)
    (hpos : pos < (encrypt_aes_cbc lib P K salt iv).ciphertext.length)
    (hv : v ≠ (encrypt_aes_cbc lib P K salt iv).ciphertext.getD pos 0) :
    decrypt_aes_cbc lib ((encrypt_aes_cbc lib P K salt iv).ciphertext.set pos v)
        K salt iv none ≠ .ok P ∧
    (∀ (sha256 : Bytes → String) (p' : Bytes),
      decrypt_aes_cbc lib
        ((encrypt_aes_cbc lib P K salt iv).ciphertext.set pos v) K salt iv none
        = .ok p' →
      sha256 p' ≠ sha256 P →
      verify_sha256 sha256 p' (sha256 P) = false) := by
  have hct : (encrypt_aes_cbc lib P K salt iv).ciphertext
      = cbcEncrypt (lib.aes.encB (lib.deriveKey K salt)) iv (pkcs7Pad P) := rfl
  have hctlen : (encrypt_aes_cbc lib P K salt iv).ciphertext.length
      = (pkcs7Pad P).length := by
    rw [hct]
    exact cbcEncAux_length _ (hElen _) _ _ _ le_rfl (pkcs7Pad_length_dvd P) hiv
  have hdiv : 16 ∣ (encrypt_aes_cbc lib P K salt iv).ciphertext.length := by
    rw [hctlen]
    exact pkcs7Pad_length_dvd P
  have hsetlen : ((encrypt_aes_cbc lib P K salt iv).ciphertext.set pos v).length
      = (encrypt_aes_cbc lib P K salt iv).ciphertext.length :=
    List.length_set _ _ _
  have hne : (encrypt_aes_cbc lib P K salt iv).ciphertext
      ≠ (encrypt_aes_cbc lib P K salt iv).ciphertext.set pos v := by
    intro h
    apply hv
    have h1 : ((encrypt_aes_cbc lib P K salt iv).ciphertext.set pos v)[pos]?
        = some v := List.getElem?_set_self hpos
    rw [← h, List.getElem?_eq_getElem hpos, Option.some.injEq] at h1
    rw [List.getD_eq_getElem?_getD, List.getElem?_eq_getElem hpos,
      Option.getD_some]
    exact h1.symm
  have hdec0 : cbcDecrypt (lib.aes.decB (lib.deriveKey K salt)) iv
      (encrypt_aes_cbc lib P K salt iv).ciphertext = pkcs7Pad P := by
    rw [hct]
    exact cbcDecrypt_cbcEncrypt _ _ (hDE _) (hElen _) _ _
      (pkcs7Pad_length_dvd P) hiv
  have hdne : cbcDecrypt (lib.aes.decB (lib.deriveKey K salt)) iv
        ((encrypt_aes_cbc lib P K salt iv).ciphertext.set pos v)
      ≠ pkcs7Pad P := by
    intro h
    refine cbcDecAux_ne (lib.aes.decB (lib.deriveKey K salt)) (hDlen _) (hDinj _)
      (encrypt_aes_cbc lib P K salt iv).ciphertext.length
      (encrypt_aes_cbc lib P K salt iv).ciphertext
      ((encrypt_aes_cbc lib P K salt iv).ciphertext.set pos v) iv
      le_rfl hsetlen hdiv hiv hne ?_
    show cbcDecAux _ _ _ _ = cbcDecAux _ _ _ _
    unfold cbcDecrypt at hdec0 h
    rw [hsetlen] at h
    rw [hdec0, h]
  have hunp : pkcs7Unpad (cbcDecrypt (lib.aes.decB (lib.deriveKey K salt)) iv
      ((encrypt_aes_cbc lib P K salt iv).ciphertext.set pos v)) ≠ some P := by
    have hplen : (pkcs7Pad P).length
        = (cbcDecrypt (lib.aes.decB (lib.deriveKey K salt)) iv
            ((encrypt_aes_cbc lib P K salt iv).ciphertext.set pos v)).length := by
      unfold cbcDecrypt
      rw [cbcDecAux_length _ (hDlen _) _ _ _ le_rfl (by rw [hsetlen]; exact hdiv)
        hiv, hsetlen, hctlen]
    exact pkcs7Unpad_ne hplen (fun h => hdne h.symm) (pkcs7Unpad_pkcs7Pad P)
  constructor
  · intro hcon
    unfold decrypt_aes_cbc at hcon
    dsimp only at hcon
    cases hu : pkcs7Unpad (cbcDecrypt (lib.aes.decB (lib.deriveKey K salt)) iv
        ((encrypt_aes_cbc lib P K salt iv).ciphertext.set pos v)) with
    | none => rw [hu] at hcon; exact Except.noConfusion hcon
    | some r =>
      rw [hu] at hcon
      simp only [Except.ok.injEq] at hcon
      exact hunp (hcon ▸ hu)
  · intro sha256 p' _ hsha
    unfold verify_sha256
    exact beq_eq_false_iff_ne.mpr hsha

/-- C7 as stated is false on the code: flipping the final ciphertext byte of
an AES-CBC encryption of the empty plaintext makes PKCS7 unpadding fail, so
decryption raises instead of yielding any plaintext whose hash could be
compared (instantiated at an identity block cipher satisfying the AES
interface). -/
theorem C7_cbc_tamper_counterexample :
    15 < (encrypt_aes_cbc testCryptoLib [] "k" (List.replicate 32 0)
      (List.replicate 16 0)).ciphertext.length ∧
    (17 : Nat) ≠ (encrypt_aes_cbc testCryptoLib [] "k" (List.replicate 32 0)
      (List.replicate 16 0)).ciphertext.getD 15 0 ∧
    decrypt_aes_cbc testCryptoLib
      ((encrypt_aes_cbc testCryptoLib [] "k" (List.replicate 32 0)
        (List.replicate 16 0)).ciphertext.set 15 17)
      "k" (List.replicate 32 0) (List.replicate 16 0) none
      = .error .invalidPadding := by
  refine ⟨?_, ?_, ?_⟩ <;> decide

theorem C7_cbc_tamper_amended_witness :
    decrypt_aes_cbc testCryptoLib
      ((encrypt_aes_cbc testCryptoLib [] "k" (List.replicate 32 0)
        (List.replicate 16 0)).ciphertext.set 15 17)
      "k" (List.replicate 32 0) (List.replicate 16 0) none ≠ .ok [] :=
  (C7_cbc_tamper_amended testCryptoLib (fun _ _ _ => rfl) (fun _ _ h => h)
    (fun _ _ h => h) (fun _ _ _ _ _ h => h) [] "k" (List.replicate 32 0)
    (List.replicate 16 0) rfl 15 17 (by decide) (by decide)).1

end SecureVault
